import Mathlib

/-!
Verification of the task-tracker tree logic of `todo_v2.py`.

A row of the tree widget is modelled as a `TNode`: the 26 column texts
(`values`, indexed by the column constants below), the stored level
(`ROLE_LEVEL` item data), the case tag (`ROLE_CASE` item data) and the
ordered list of children.  Widget-only effects (cell background colors,
fonts, progress-bar styling, expansion state) have no representation in
the data model and are omitted; every text/data mutation of the source is
embedded.
-/

namespace Todo

/-- Column constants of the source (`COL_PROJECT = 0`, ..., `COL_PROGRESS = 25`). -/
def COL_PROJECT : Nat := 0
def COL_LEVEL : Nat := 2
def COL_PIC : Nat := 13
def COL_START : Nat := 8
def COL_END : Nat := 9
def COL_WEIGHT : Nat := 10
def COL_LAST_UPDATE : Nat := 11
def COL_IDLE : Nat := 12
def COL_STEP_START : Nat := 15
def COL_STEP_END : Nat := 24
def COL_PROGRESS : Nat := 25

/-- Number of columns (`len(HEADERS)` = 15 + 10 + 1). -/
def columnCount : Nat := 26

/-- `STEP_CYCLE = ["", "WIP", "Done", "N/A"]`. -/
def STEP_CYCLE : List String := ["", "WIP", "Done", "N/A"]

/-- A tree row: column texts, stored level, case tag, ordered children. -/
inductive TNode where
  | mk (values : List String) (level : Nat) (caseTag : String) (children : List TNode)

instance : Inhabited TNode := ⟨TNode.mk [] 0 "" []⟩

def TNode.values : TNode → List String
  | .mk v _ _ _ => v

def TNode.level : TNode → Nat
  | .mk _ l _ _ => l

def TNode.caseTag : TNode → String
  | .mk _ _ c _ => c

def TNode.children : TNode → List TNode
  | .mk _ _ _ ch => ch

/-- `it.text(c)`: the text of column `c` (Qt returns "" for unset cells). -/
def textAt (t : TNode) (c : Nat) : String := t.values.getD c ""

/-- `it.setText(c, s)`. -/
def setText (t : TNode) (c : Nat) (s : String) : TNode :=
  .mk (t.values.set c s) t.level t.caseTag t.children

/-- `safe_set(it, ROLE_CASE, v)` (signal blocking is control flow only). -/
def setCase (t : TNode) (s : String) : TNode :=
  .mk t.values t.level s t.children

def withChildren (t : TNode) (ch : List TNode) : TNode :=
  .mk t.values t.level t.caseTag ch

/-- The step columns, `range(COL_STEP_START, COL_STEP_END + 1)`. -/
def stepCols : List Nat := List.range' 15 10

/-- The step-cell successor used by both click handlers:
`STEP_CYCLE[(STEP_CYCLE.index(val) + 1) % len(STEP_CYCLE)] if val in STEP_CYCLE else "WIP"`. -/
def stepNext (v : String) : String :=
  match STEP_CYCLE.indexOf? v with
  | some i => STEP_CYCLE.getD ((i + 1) % STEP_CYCLE.length) ""
  | none => "WIP"

/-- The per-column aggregation of `update_parent_stage_from_children`:
given the children texts at one step column, the parent text becomes
"Done" when `all(s in ("Done", "N/A") for s in child_statuses if s)`,
else "" when `all(s in ("", "WIP") for s in child_statuses)`,
else "WIP". -/
def aggStatus (ss : List String) : String :=
  if (ss.filter (fun s => !(s == ""))).all (fun s => s == "Done" || s == "N/A") then "Done"
  else if ss.all (fun s => s == "" || s == "WIP") then ""
  else "WIP"

/-- `update_parent_stage_from_children(parent)`: no-op for childless nodes;
otherwise each step column of the parent is set to the aggregation of the
children texts at that column (cell coloring and the progress-bar update
touch no text). -/
def update_parent_stage_from_children (p : TNode) : TNode :=
  if p.children.isEmpty then p
  else
    .mk (stepCols.foldl
          (fun acc c => acc.set c (aggStatus (p.children.map (fun t => textAt t c))))
          p.values)
        p.level p.caseTag p.children

/-- `touch_last_update(it)`: writes the wall-clock timestamp into
`COL_LAST_UPDATE` and the derived idle-day count into `COL_IDLE`; both
wall-clock-dependent strings are supplied as parameters. -/
def touch_last_update (nowTxt idleTxt : String) (t : TNode) : TNode :=
  setText (setText t COL_LAST_UPDATE nowTxt) COL_IDLE idleTxt

/-- The step branch of `on_click(it, col)` applied to one row: the clicked
cell is cycled (`update_progress` and `save_all` change no cell text). -/
def on_click_step (nowTxt idleTxt : String) (t : TNode) (c : Nat) : TNode :=
  touch_last_update nowTxt idleTxt (setText t c (stepNext (textAt t c)))

/-- A left click on step column `c` of child `i`: `on_click` runs on the
child and, per the source, does not touch the parent row. -/
def left_click_child_step (nowTxt idleTxt : String) (p : TNode) (i c : Nat) : TNode :=
  withChildren p (p.children.set i (on_click_step nowTxt idleTxt (p.children.getD i default) c))

/-- The cascade of `on_right_click_step` on the clicked row: the clicked
column is cycled, then every earlier step column is set to the same new
state (`for c in range(COL_STEP_START, col)`). -/
def right_click_cascade (t : TNode) (c : Nat) : TNode :=
  let nxt := stepNext (textAt t c)
  .mk ((List.range' COL_STEP_START (c - COL_STEP_START)).foldl
        (fun acc cc => acc.set cc nxt) (t.values.set c nxt))
      t.level t.caseTag t.children

/-- `on_right_click_step(it, col)` where `it` is child `i` of `p`: outside
the step range it returns unchanged; otherwise the child is cascaded,
time-stamped, and then `update_parent_stage_from_children(parent)` runs. -/
def on_right_click_step (nowTxt idleTxt : String) (p : TNode) (i c : Nat) : TNode :=
  if COL_STEP_START ≤ c ∧ c ≤ COL_STEP_END then
    update_parent_stage_from_children
      (withChildren p
        (p.children.set i
          (touch_last_update nowTxt idleTxt (right_click_cascade (p.children.getD i default) c))))
  else p

/-- The `done` counter of `update_progress`: loop over the step columns
counting texts in `("Done", "N/A")`. -/
def update_progress_done (t : TNode) : Nat :=
  stepCols.foldl (fun d c => if textAt t c == "Done" || textAt t c == "N/A" then d + 1 else d) 0

/-- The percentage computed by `update_progress`,
`int((done / total_steps) * 100)` with `total_steps = 10`.  For every
reachable `done` (0..10) the IEEE-double expression evaluates exactly to
`done * 10`, which integer arithmetic renders as `done * 100 / 10`. -/
def update_progress_pct (t : TNode) : Nat :=
  update_progress_done t * 100 / 10

/-! ## Level recomputation (`DragAwareTree.recompute_levels`) -/

mutual
/-- `set_levels(it, lvl)`: store `lvl`, write the text `L{lvl}` into the
Level column, and recurse on children with `min(lvl + 1, 9)`. -/
def recomputeNode (lvl : Nat) : TNode → TNode
  | .mk vs _ cs ch =>
    .mk (vs.set COL_LEVEL ("L" ++ Nat.repr lvl)) lvl cs (recomputeList (min (lvl + 1) 9) ch)

def recomputeList (lvl : Nat) : List TNode → List TNode
  | [] => []
  | t :: ts => recomputeNode lvl t :: recomputeList lvl ts
end

/-- `recompute_levels`: every top-level item is relabelled starting from 0. -/
def recompute_levels (f : List TNode) : List TNode := recomputeList 0 f

/-! ## Item construction and child creation -/

/-- The initial `row` list of `make_item(project, level)` (26 entries);
the wall-clock strings `today` and `now` are parameters. -/
def makeItemValues (project : String) (level : Nat) (today now : String) : List String :=
  [project, "🎨", "L" ++ Nat.repr level, "", "", "", "", "", today, today, "",
   now, "0", "", ""] ++ List.replicate 10 "" ++ [""]

/-- `make_item(project, level)`: fresh row texts, stored level, empty case
tag, no children (flags, alignment and widgets are GUI-only). -/
def make_item (project : String) (level : Nat) (today now : String) : TNode :=
  .mk (makeItemValues project level today now) level "" []

/-- Python `str.strip()`: drop leading and trailing whitespace. -/
def pyStrip (s : String) : String :=
  ⟨((s.data.dropWhile Char.isWhitespace).reverse.dropWhile Char.isWhitespace).reverse⟩

/-- `f"{n:02d}"`: the sequence suffix format. -/
def seq2d (n : Nat) : String :=
  if n < 10 then "0" ++ Nat.repr n else Nat.repr n

/-- The generated case identifier `f"{proj}_L{lvl}_{suffix}"`. -/
def mkCase (proj : String) (lvl : Nat) (suffix : String) : String :=
  proj ++ "_L" ++ Nat.repr lvl ++ "_" ++ suffix

/-- Helper for `s.split("_")[-1]`: characters seen since the last
underscore, accumulated in reverse. -/
def splitTailAux : List Char → List Char → List Char
  | [], acc => acc.reverse
  | c :: cs, acc => if c = '_' then splitTailAux cs [] else splitTailAux cs (c :: acc)

/-- Python `s.split("_")[-1]`: the part of `s` after its last underscore
(`s` itself when it has none). -/
def splitLastTail (s : String) : String := ⟨splitTailAux s.data []⟩

/-- `add_child(parent)` restricted to the tree data it mutates: the child
level is the stored parent level plus one (uncapped here; the global
`recompute_levels` that `add_child` then runs applies the cap), the child
inherits the stripped project text, a non-empty stripped PIC, and gets a
case tag exactly when the stripped project text is non-empty.  Returns the
parent with the child appended, together with the new sequence counter.
The color-map update and `save_all` touch no tree data. -/
def add_child (seq : Nat) (today now : String) (p : TNode) : TNode × Nat :=
  let lvl := p.level + 1
  let proj := pyStrip (textAt p COL_PROJECT)
  let child0 := make_item proj lvl today now
  let pic := pyStrip (textAt p COL_PIC)
  let child1 := if pic ≠ "" then setText child0 COL_PIC pic else child0
  let (child2, seq') :=
    if proj ≠ "" then (setCase child1 (mkCase proj lvl (seq2d (seq + 1))), seq + 1)
    else (child1, seq)
  (withChildren p (p.children ++ [child2]), seq')

/-- The whole `add_child` pipeline as seen from the parent subtree sitting
at depth `d` in the tree: append the child, then the global
`recompute_levels` relabels this subtree starting from `min d 9`, then
`update_parent_stage_from_children(parent)` runs
(`lock_parent_steps` only toggles flags and colors). -/
def add_child_at_depth (d seq : Nat) (today now : String) (p : TNode) : TNode :=
  update_parent_stage_from_children (recomputeNode (min d 9) (add_child seq today now p).1)

/-! ## Case-id maintenance on edit and on drop -/

/-- The `COL_PROJECT` branch of `on_edit(it, col)` (fires after the cell
text already holds the new name): the case tag becomes
`f"{proj}_L{lvl}_{suffix}"` where `suffix` is `old.split("_")[-1]` when a
case tag exists and a fresh `f"{next_seq():02d}"` otherwise.  Returns the
node and the new sequence counter. -/
def on_edit_project (seq : Nat) (t : TNode) : TNode × Nat :=
  let proj := pyStrip (textAt t COL_PROJECT)
  let lvl := t.level
  let (suffix, seq') :=
    if t.caseTag ≠ "" then (splitLastTail t.caseTag, seq)
    else (seq2d (seq + 1), seq + 1)
  (setCase t (mkCase proj lvl suffix), seq')

mutual
/-- The per-node `update` of `after_drop`: when both the stripped project
text and the case tag are non-empty, the case tag is rebuilt from the
current project, current level and the old suffix; otherwise it is left
alone.  Children are updated recursively. -/
def afterDropNode : TNode → TNode
  | .mk vs lvl cs ch =>
    let proj := pyStrip (vs.getD COL_PROJECT "")
    let cs' := if proj ≠ "" ∧ cs ≠ "" then mkCase proj lvl (splitLastTail cs) else cs
    .mk vs lvl cs' (afterDropList ch)

def afterDropList : List TNode → List TNode
  | [] => []
  | t :: ts => afterDropNode t :: afterDropList ts
end

/-- What a drop does to the tree data: `dropEvent` first runs
`recompute_levels`, then the `after_drop` hook refreshes case tags. -/
def dropUpdate (f : List TNode) : List TNode :=
  afterDropList (recompute_levels f)

/-! ## Weight parsing and workday arithmetic

Dates are Julian day numbers, as stored by `QDate`; Julian day 0 is a
Monday, so `QDate.dayOfWeek` (1 = Monday .. 7 = Sunday) is `d % 7 + 1`,
and a date is a working day exactly when `d % 7 ≤ 4`. -/

/-- `d.dayOfWeek() <= 5` for a Julian day number. -/
def isWeekday (d : Nat) : Prop := d % 7 ≤ 4

instance (d : Nat) : Decidable (isWeekday d) := by unfold isWeekday; infer_instance

/-- Python `\s*` over a character list (`\s` is whitespace). -/
def skipWs (cs : List Char) : List Char := cs.dropWhile (fun c => c.isWhitespace)

/-- Value of a digit run, most significant first. -/
def digitsToNat (ds : List Char) : Nat :=
  ds.foldl (fun n c => n * 10 + (c.toNat - '0'.toNat)) 0

/-- `parse_weight_days(text)`: `None` for falsy (empty) text, otherwise the
anchored regex match of `\s*(\d+)\s*[dD]\s*$` returning the digit group. -/
def parse_weight_days (s : String) : Option Nat :=
  if s = "" then none
  else
    let cs := skipWs s.data
    let ds := cs.takeWhile Char.isDigit
    let rest := skipWs (cs.dropWhile Char.isDigit)
    if ds = [] then none
    else
      match rest with
      | c :: rest' =>
        if (c = 'd' ∨ c = 'D') ∧ skipWs rest' = [] then some (digitsToNat ds) else none
      | [] => none

/-- The loop of `add_workdays(qdate, n)` for `n ≥ 0` (weight values are
unsigned, so `step = 1`): advance one day at a time, decrementing the
remaining count only on working days. -/
def addWorkdaysLoop (d remaining : Nat) : Nat :=
  if remaining = 0 then d
  else if (d + 1) % 7 ≤ 4 then addWorkdaysLoop (d + 1) (remaining - 1)
  else addWorkdaysLoop (d + 1) remaining
termination_by (remaining, 7 - d % 7)
decreasing_by
  · exact Prod.Lex.left _ _ (by omega)
  · exact Prod.Lex.right _ (by omega)

/-- `add_workdays(qdate, n)`. -/
def add_workdays (d n : Nat) : Nat := addWorkdaysLoop d n

/-- The number of working days strictly after `a` and up to `b` — the
specification-side count the claim describes (weekend days do not count). -/
def countWorkdays (a b : Nat) : Nat :=
  if a < b then (if (a + 1) % 7 ≤ 4 then 1 else 0) + countWorkdays (a + 1) b else 0
termination_by b - a
decreasing_by omega

/-- The `COL_WEIGHT` branch of `on_edit` (and of `on_click`): when the
weight text parses, the end date becomes `add_workdays(start, w)`. -/
def on_edit_weight (startDate : Nat) (weightText : String) : Option Nat :=
  (parse_weight_days weightText).map (fun w => add_workdays startDate w)

/-! ## The `QDate` text codec for the format `yyyy/MM/dd`

`QDate` is backed by a Julian day number and uses the proleptic Gregorian
calendar; these functions model `QDate.fromString(s, "yyyy/MM/dd")` and
`QDate.toString("yyyy/MM/dd")` on the dates the widget handles. -/

def isLeapYear (y : Nat) : Bool :=
  (y % 4 == 0 && y % 100 != 0) || y % 400 == 0

def daysInMonth (y m : Nat) : Nat :=
  if m = 2 then (if isLeapYear y then 29 else 28)
  else if m = 4 ∨ m = 6 ∨ m = 9 ∨ m = 11 then 30
  else 31

/-- Gregorian date to Julian day number (Fliegel-Van Flandern);
safe in `Nat` for every year the four-digit format can produce. -/
def gregToJulian (y m d : Nat) : Nat :=
  let a := (14 - m) / 12
  let y' := y + 4800 - a
  let m' := m + 12 * a - 3
  d + (153 * m' + 2) / 5 + 365 * y' + y' / 4 - y' / 100 + y' / 400 - 32045

/-- Julian day number to a Gregorian `(year, month, day)` triple (the
standard integer algorithm; years before 1 CE, which no valid widget date
produces, truncate in `Nat`). -/
def julianToGregParts (j : Nat) : Nat × Nat × Nat :=
  let a := j + 32044
  let b := (4 * a + 3) / 146097
  let c := a - 146097 * b / 4
  let d2 := (4 * c + 3) / 1461
  let e := c - 1461 * d2 / 4
  let m2 := (5 * e + 2) / 153
  (100 * b + d2 - 4800 + m2 / 10, m2 + 3 - 12 * (m2 / 10), e - (153 * m2 + 2) / 5 + 1)

def pad2 (n : Nat) : String := if n < 10 then "0" ++ Nat.repr n else Nat.repr n

def pad4 (n : Nat) : String :=
  if n < 10 then "000" ++ Nat.repr n
  else if n < 100 then "00" ++ Nat.repr n
  else if n < 1000 then "0" ++ Nat.repr n
  else Nat.repr n

/-- `QDate.toString("yyyy/MM/dd")`. -/
def printDate (j : Nat) : String :=
  match julianToGregParts j with
  | (y, m, d) => pad4 y ++ "/" ++ pad2 m ++ "/" ++ pad2 d

/-- `QDate.fromString(s, "yyyy/MM/dd")`: the whole string must match the
format (four year digits, slash, two month digits, slash, two day digits)
and name a valid proleptic-Gregorian date (`QDate` has no year 0);
the result is its Julian day number, `none` standing for an invalid
`QDate`. -/
def parseDate (s : String) : Option Nat :=
  match s.data with
  | [y1, y2, y3, y4, c1, m1, m2, c2, d1, d2] =>
    if (y1.isDigit && y2.isDigit && y3.isDigit && y4.isDigit && m1.isDigit && m2.isDigit
        && d1.isDigit && d2.isDigit) = true ∧ c1 = '/' ∧ c2 = '/' then
      let y := digitsToNat [y1, y2, y3, y4]
      let m := digitsToNat [m1, m2]
      let d := digitsToNat [d1, d2]
      if y ≠ 0 ∧ 1 ≤ m ∧ m ≤ 12 ∧ 1 ≤ d ∧ d ≤ daysInMonth y m then
        some (gregToJulian y m d)
      else none
    else none
  | _ => none

/-! ## The date-widget cascade fired while restoring a row

`setup_row_widgets` sets both `QDateEdit`s to the current date before
connecting their `dateChanged` signals, so when `restore_tree` later calls
`se.setDate(sd)` / `ee.setDate(ed)` the handler `on_date_changed` fires
exactly when the new date differs from the widget date, which starts as
the restore day.  `tree.blockSignals` does not block the `QDateEdit`
signals, so these handlers run during a restore and rewrite cell texts
that `dump_tree` persists; only the tree's own `itemChanged` (hence
`on_edit`) stays silent for the `setText` calls below.  `save_all` writes
the file and touches no tree data. -/

/-- `on_date_changed(it, False)` with widget dates `ws`, `we`: both date
texts are rewritten from the widgets and the row is time-stamped. -/
def on_date_changed_end (nowTxt idleTxt : String) (ws we : Nat) (t : TNode) : TNode :=
  touch_last_update nowTxt idleTxt
    (setText (setText t COL_START (printDate ws)) COL_END (printDate we))

/-- `on_date_changed(it, True)` with widget dates `ws`, `we`: when the
weight text parses, `ee.setDate(add_workdays(se.date(), w))` runs first,
synchronously firing the end-date handler when it changes the end widget;
then both date texts are rewritten and the row time-stamped.  Returns the
new end-widget date with the row. -/
def on_date_changed_start (nowTxt idleTxt : String) (ws we : Nat) (t : TNode) : Nat × TNode :=
  let (we', t') :=
    match parse_weight_days (textAt t COL_WEIGHT) with
    | some n =>
      let ne := add_workdays ws n
      if ne = we then (we, t) else (ne, on_date_changed_end nowTxt idleTxt ws ne t)
    | none => (we, t)
  (we', touch_last_update nowTxt idleTxt
    (setText (setText t' COL_START (printDate ws)) COL_END (printDate we')))

/-- The date block `restore_tree` runs on each row: both texts are parsed
first, then `se.setDate(sd)` runs for a valid start (firing the start
handler when `sd` differs from the restore day) and `ee.setDate(ed)` for a
valid end (firing the end handler when `ed` differs from the end widget at
that point).  The surrounding `try/except` guards nothing that raises at
this level. -/
def restore_row_dates (todayD : Nat) (nowTxt idleTxt : String) (t : TNode) : TNode :=
  let sd := parseDate (textAt t COL_START)
  let ed := parseDate (textAt t COL_END)
  let (ws1, we1, t1) :=
    match sd with
    | none => (todayD, todayD, t)
    | some s =>
      if s = todayD then (s, todayD, t)
      else
        let (we', t') := on_date_changed_start nowTxt idleTxt s todayD t
        (s, we', t')
  match ed with
  | none => t1
  | some e => if e = we1 then t1 else on_date_changed_end nowTxt idleTxt ws1 e t1

/-! ## JSON serialization (`dump_tree` / `restore_tree` / `load_all`) -/

/-- One JSON record dict: `values` and (for robustness of `restore_tree`,
which reads them with `d.get`) optional `level`, `case` and `children`.
A missing `values` key makes `d["values"]` raise. -/
inductive EntryJ where
  | mk (values : Option (List String)) (level : Option Nat) (caseTag : Option String)
       (children : Option (List EntryJ))

def EntryJ.values : EntryJ → Option (List String)
  | .mk v _ _ _ => v

def EntryJ.level : EntryJ → Option Nat
  | .mk _ l _ _ => l

def EntryJ.caseTag : EntryJ → Option String
  | .mk _ _ c _ => c

def EntryJ.childrenJ : EntryJ → Option (List EntryJ)
  | .mk _ _ _ ch => ch

mutual
/-- `dump_tree`: each item contributes its 26 column texts, its stored
level and its case tag; the `children` key is present only when the item
has children (`if kids`). -/
def dumpNode : TNode → EntryJ
  | .mk vs lvl cs ch =>
    .mk (some ((List.range columnCount).map (fun i => vs.getD i "")))
        (some lvl) (some cs)
        (match dumpList ch with
         | [] => none
         | ks => some ks)

def dumpList : List TNode → List EntryJ
  | [] => []
  | t :: ts => dumpNode t :: dumpList ts
end

def dump_tree (f : List TNode) : List EntryJ := dumpList f

/-- The `setText` loop of `restore_tree`
(`for i, v in enumerate(d["values"]): if i < columnCount: setText(i, v)`);
the base row always has `columnCount` entries, so `List.set` silently
ignoring larger indices matches the guard. -/
def setTexts (base : List String) (vs : List String) : List String :=
  go base 0 vs
where
  go (acc : List String) (i : Nat) : List String → List String
    | [] => acc
    | v :: rest => go (acc.set i v) (i + 1) rest

mutual
/-- The body of `restore_tree(data, parent)` with the exception behavior
made explicit: the returned Bool is `true` when no exception occurred, and
the node list is what had been attached to the tree at the moment an
exception was raised (`d["values"]` missing, or `d["values"][COL_PROJECT]`
out of range).  A failing entry aborts the loop; the nodes of earlier
iterations — and, for a failure inside a child list, the parent node with
its partially restored children — remain.  Each row is built from the
`make_item` defaults (whose today text is the printed restore day),
overwritten by the dumped texts, given its case tag and then passed
through the date-widget cascade `restore_row_dates`.  Widget, color, font
and expansion updates are GUI-only.  Each nested `restore_tree` call ends
with a whole-tree `recompute_levels`; these interleaved runs are not
replayed here because a later run overwrites everything an earlier one
wrote (`recomputeNode_absorb` below), so on the success path only the
final top-level run is observable; on a partial-failure path they can
leave already-restored nodes relabelled, and no theorem below relies on
the node list of a path where one had run. -/
def restoreList (todayD : Nat) (now idle : String) : List EntryJ → (List TNode × Bool)
  | [] => ([], true)
  | .mk vals lvlJ caseJ chJ :: rest =>
    match vals with
    | none => ([], false)
    | some vs =>
      match vs[0]? with
      | none => ([], false)
      | some proj =>
        let lvl := lvlJ.getD 0
        let (kids, ok) := restoreChildren todayD now idle chJ
        let node := restore_row_dates todayD now idle
          (TNode.mk (setTexts (makeItemValues proj lvl (printDate todayD) now) vs)
            lvl (caseJ.getD "") kids)
        if ok then
          let (rest', ok') := restoreList todayD now idle rest
          (node :: rest', ok')
        else ([node], false)

def restoreChildren (todayD : Nat) (now idle : String) :
    Option (List EntryJ) → (List TNode × Bool)
  | none => ([], true)
  | some es => restoreList todayD now idle es
end

/-- `restore_tree(data)` at top level, followed — only when no exception
escaped — by the final `recompute_levels()`. -/
def restore_tree (todayD : Nat) (now idle : String) (data : List EntryJ) :
    List TNode × Bool :=
  match restoreList todayD now idle data with
  | (f, true) => (recompute_levels f, true)
  | (f, false) => (f, false)

/-- Round trip `restore_tree (dump_tree f)` on the success path. -/
def roundTrip (todayD : Nat) (now idle : String) (f : List TNode) : List TNode :=
  (restore_tree todayD now idle (dump_tree f)).1

/-- The `RecordKeeper` state that `load_all` reads or writes. -/
structure AppState where
  seq : Nat
  colorMap : List (String × String)
  tree : List TNode
  columnOrder : Option (List Nat)
  columnWidths : Option (List Nat)
  headerState : Option String
  geometry : Option String

/-- The parsed JSON document (`d`), fields read with `d.get`. -/
structure Doc where
  seqJ : Option Nat
  colors : Option (List (String × String))
  records : Option (List EntryJ)
  columnOrderJ : Option (List Nat)
  columnWidthsJ : Option (List Nat)
  headerStateJ : Option String
  windowGeometry : Option String

/-- The `try` body of `load_all` after a successful `json.load`: scalar
fields are assigned, the tree is cleared and restored; an exception inside
`restore_tree` propagates (carrying the partially mutated state, which the
caller's `except` keeps), skipping the geometry restore.  The nested
geometry `try/except` never lets an error escape; restoring it is modelled
as storing the hex string. -/
def loadBody (todayD : Nat) (now idle : String) (d : Doc) (st : AppState) :
    Except AppState AppState :=
  let st1 : AppState :=
    { seq := d.seqJ.getD 0
      colorMap := d.colors.getD []
      columnOrder := d.columnOrderJ
      columnWidths := d.columnWidthsJ
      headerState := d.headerStateJ
      geometry := st.geometry
      tree := [] }
  match restore_tree todayD now idle (d.records.getD []) with
  | (f, false) => .error { st1 with tree := f }
  | (f, true) =>
    .ok { st1 with tree := f,
                   geometry := match d.windowGeometry with
                               | some g => some g
                               | none => st.geometry }

/-- `load_all`: `none` models a missing file (early return), `some none` a
`json.load` that raised before any assignment, `some (some d)` a parsed
document.  The outer `except` turns any body exception into a normal
return with the state as mutated so far. -/
def load_all (todayD : Nat) (now idle : String) (input : Option (Option Doc))
    (st : AppState) : AppState :=
  match input with
  | none => st
  | some none => st
  | some (some d) =>
    match loadBody todayD now idle d st with
    | .ok s => s
    | .error s => s

/-! ## Invariant predicates -/

mutual
/-- Levels are canonical: each node at depth `d` stores `min d 9` (hence
never more than 9), recursively. -/
def CanonNode : Nat → TNode → Prop
  | d, .mk _ lvl _ ch => lvl = min d 9 ∧ lvl ≤ 9 ∧ CanonList (d + 1) ch

def CanonList : Nat → List TNode → Prop
  | _, [] => True
  | d, t :: ts => CanonNode d t ∧ CanonList d ts
end

mutual
/-- The per-row start and end texts either fail to parse as dates or name
the restore day, so the date-widget cascade of a restore leaves the row
unchanged (the start widget holds the restore day when the end handler
would fire, and neither handler fires). -/
def BenignNode (todayD : Nat) : TNode → Prop
  | .mk vs _ _ ch =>
    (parseDate (vs.getD COL_START "") = none ∨ parseDate (vs.getD COL_START "") = some todayD)
    ∧ (parseDate (vs.getD COL_END "") = none ∨ parseDate (vs.getD COL_END "") = some todayD)
    ∧ BenignList todayD ch

def BenignList (todayD : Nat) : List TNode → Prop
  | [] => True
  | t :: ts => BenignNode todayD t ∧ BenignList todayD ts
end

mutual
/-- Shape produced by the widget: every row has `columnCount` cells. -/
def Len26Node : TNode → Prop
  | .mk vs _ _ ch => vs.length = 26 ∧ Len26List ch

def Len26List : List TNode → Prop
  | [] => True
  | t :: ts => Len26Node t ∧ Len26List ts
end

mutual
/-- Full app invariant of a subtree rooted at depth `d`: full rows,
canonical stored level and canonical Level-column text. -/
def WFNode : Nat → TNode → Prop
  | d, .mk vs lvl _ ch =>
    vs.length = 26 ∧ lvl = min d 9 ∧ vs.getD COL_LEVEL "" = "L" ++ Nat.repr (min d 9) ∧
    WFList (d + 1) ch

def WFList : Nat → List TNode → Prop
  | _, [] => True
  | d, t :: ts => WFNode d t ∧ WFList d ts
end

/-! ## Concrete fixtures used by counterexamples and witnesses -/

/-- A row of 26 blank cells. -/
def blankRow : List String := List.replicate 26 ""

/-- A childless row with all-blank steps. -/
def blankChild : TNode := .mk blankRow 1 "" []

/-- A chain of `k` blank wrapper nodes around a subtree (for building a
deeply nested tree). -/
def nestChain : Nat → TNode → TNode
  | 0, t => t
  | k + 1, t => .mk blankRow 0 "" [nestChain k t]

/-- Walk `k` steps down the first-child spine. -/
def descendFirst : Nat → TNode → TNode
  | 0, t => t
  | k + 1, t => descendFirst k (t.children.headD default)

/-- A JSON document whose first record lacks the `values` key, so
`restore_tree` raises a `KeyError` that `load_all` swallows. -/
def badDoc : Doc :=
  { seqJ := some 7
    colors := some [("A", "#ffffff")]
    records := some [EntryJ.mk none none none none]
    columnOrderJ := none
    columnWidthsJ := none
    headerStateJ := none
    windowGeometry := none }

/-- A sample pre-load state with non-trivial fields. -/
def st0 : AppState :=
  { seq := 3
    colorMap := [("B", "#000000")]
    tree := [TNode.mk blankRow 0 "" []]
    columnOrder := none
    columnWidths := none
    headerState := none
    geometry := none }

/-! # Helper lemmas -/

@[simp] theorem values_mk (vs : List String) (lvl : Nat) (cs : String) (ch : List TNode) :
    (TNode.mk vs lvl cs ch).values = vs := rfl

@[simp] theorem level_mk (vs : List String) (lvl : Nat) (cs : String) (ch : List TNode) :
    (TNode.mk vs lvl cs ch).level = lvl := rfl

@[simp] theorem caseTag_mk (vs : List String) (lvl : Nat) (cs : String) (ch : List TNode) :
    (TNode.mk vs lvl cs ch).caseTag = cs := rfl

@[simp] theorem children_mk (vs : List String) (lvl : Nat) (cs : String) (ch : List TNode) :
    (TNode.mk vs lvl cs ch).children = ch := rfl

theorem getD_set_self {α} {l : List α} {c : Nat} (h : c < l.length) (s d : α) :
    (l.set c s).getD c d = s := by
  simp [List.getD_eq_getElem?_getD, List.getElem?_set_eq_of_lt _ h]

theorem getD_set_ne {α} {l : List α} {c c' : Nat} (h : c ≠ c') (s d : α) :
    (l.set c s).getD c' d = l.getD c' d := by
  simp [List.getD_eq_getElem?_getD, List.getElem?_set_ne h]

theorem set_getD_self {α} {l : List α} {c : Nat} {s d : α}
    (hlt : c < l.length) (h : l.getD c d = s) : l.set c s = l := by
  apply List.ext_getElem?
  intro n
  rcases eq_or_ne c n with rfl | hne
  · rw [List.getElem?_set_eq_of_lt _ hlt]
    rw [List.getD_eq_getElem?_getD] at h
    rw [List.getElem?_eq_getElem hlt] at h ⊢
    simpa using h.symm
  · exact List.getElem?_set_ne hne

/-- Folding `set` over a column list preserves the row width. -/
theorem foldl_set_length (f : Nat → String) :
    ∀ (cols : List Nat) (vs : List String),
    (cols.foldl (fun acc cc => acc.set cc (f cc)) vs).length = vs.length := by
  intro cols
  induction cols with
  | nil => intro vs; rfl
  | cons c0 rest ih => intro vs; rw [List.foldl_cons, ih]; exact List.length_set ..

/-- Folding `set` over columns not containing `c` leaves cell `c` alone. -/
theorem foldl_set_getD_not_mem (f : Nat → String) :
    ∀ (cols : List Nat) (vs : List String) (c : Nat), c ∉ cols → ∀ d : String,
    (cols.foldl (fun acc cc => acc.set cc (f cc)) vs).getD c d = vs.getD c d := by
  intro cols
  induction cols with
  | nil => intro vs c _ d; rfl
  | cons c0 rest ih =>
    intro vs c hc d
    rw [List.foldl_cons, ih (vs.set c0 (f c0)) c (fun h => hc (List.mem_cons_of_mem _ h)) d]
    refine getD_set_ne (fun h => hc ?_) _ _
    rw [h]
    exact List.mem_cons_self c rest

/-- Folding `set` over distinct columns writes `f c` at each member `c`. -/
theorem foldl_set_getD_mem (f : Nat → String) :
    ∀ (cols : List Nat) (vs : List String) (c : Nat),
    cols.Nodup → c ∈ cols → c < vs.length → ∀ d : String,
    (cols.foldl (fun acc cc => acc.set cc (f cc)) vs).getD c d = f c := by
  intro cols
  induction cols with
  | nil => intro vs c _ hmem; cases hmem
  | cons c0 rest ih =>
    intro vs c hnd hmem hlt d
    rw [List.foldl_cons]
    rcases List.mem_cons.mp hmem with rfl | hm
    · rw [foldl_set_getD_not_mem f rest _ c (List.nodup_cons.mp hnd).1 d]
      exact getD_set_self hlt _ _
    · exact ih _ c (List.nodup_cons.mp hnd).2 hm (by simpa using hlt) d

theorem stepCols_nodup : stepCols.Nodup := by decide

theorem mem_stepCols {c : Nat} : c ∈ stepCols ↔ 15 ≤ c ∧ c < 25 := by
  unfold stepCols
  rw [List.mem_range'_1]

/-- The Bool tests of `aggStatus` expressed as the branch-ordered
propositional aggregation. -/
theorem aggStatus_spec (ss : List String) :
    aggStatus ss =
      if ∀ s ∈ ss, s ≠ "" → s = "Done" ∨ s = "N/A" then "Done"
      else if ∀ s ∈ ss, s = "" ∨ s = "WIP" then ""
      else "WIP" := by
  unfold aggStatus
  have h1 : ((ss.filter (fun s => !(s == ""))).all (fun s => s == "Done" || s == "N/A") = true)
      ↔ (∀ s ∈ ss, s ≠ "" → s = "Done" ∨ s = "N/A") := by
    simp [List.all_eq_true, List.mem_filter]
    exact ⟨fun h s hs hne => (h s hs).resolve_left hne,
           fun h s hs => or_iff_not_imp_left.mpr (h s hs)⟩
  have h2 : (ss.all (fun s => s == "" || s == "WIP") = true)
      ↔ (∀ s ∈ ss, s = "" ∨ s = "WIP") := by
    simp [List.all_eq_true]
  by_cases hA : ∀ s ∈ ss, s ≠ "" → s = "Done" ∨ s = "N/A"
  · rw [if_pos (h1.mpr hA), if_pos hA]
  · rw [if_neg (fun hb => hA (h1.mp hb)), if_neg hA]
    by_cases hB : ∀ s ∈ ss, s = "" ∨ s = "WIP"
    · rw [if_pos (h2.mpr hB), if_pos hB]
    · rw [if_neg (fun hb => hB (h2.mp hb)), if_neg hB]

theorem children_update_parent_stage (p : TNode) :
    (update_parent_stage_from_children p).children = p.children := by
  unfold update_parent_stage_from_children
  split
  · rfl
  · rfl

theorem values_length_update_parent_stage (p : TNode) :
    (update_parent_stage_from_children p).values.length = p.values.length := by
  unfold update_parent_stage_from_children
  split
  · rfl
  · simp only [TNode.values]
    exact foldl_set_length _ stepCols p.values

/-- The step text an aggregation pass writes into the parent at a step
column: exactly `aggStatus` of the children texts there. -/
theorem update_parent_stage_textAt (p : TNode) (hne : p.children ≠ [])
    (hlen : p.values.length = 26) {c : Nat} (hc : c ∈ stepCols) :
    textAt (update_parent_stage_from_children p) c
      = aggStatus (p.children.map (fun t => textAt t c)) := by
  unfold update_parent_stage_from_children
  rw [if_neg (by simpa [List.isEmpty_iff] using hne)]
  simp only [textAt, TNode.values]
  exact foldl_set_getD_mem _ stepCols p.values c stepCols_nodup hc
    (by rw [hlen]; exact lt_of_lt_of_le (mem_stepCols.mp hc).2 (by omega)) ""

/-! # Claim C1 -/

/-- C1 counterexample: a parent whose only child is blank at step column 15
is set to "Done" there, not blank — `all(... for s in child_statuses if s)`
is vacuously true when every child status is blank, and the "Done" branch
is tested first.  The claim asserts the status should be blank ("a parent
all of whose children are blank at c gets a blank status, not Done"), so
it is false at this input. -/
theorem c1_counterexample :
    textAt (update_parent_stage_from_children
      (TNode.mk blankRow 0 "" [blankChild])) 15 = "Done"
    ∧ ("Done" : String) ≠ "" := by
  constructor
  · rfl
  · decide

/-- C1 amended: the three aggregation cases are tested in order, so the
parent step status at a column `c` is "Done" when every non-blank child
status there is Done or N/A — vacuously including the all-blank case —
else blank when every child status is blank or WIP, else "WIP". -/
theorem c1_parent_aggregation (p : TNode) (hne : p.children ≠ [])
    (hlen : p.values.length = 26) (c : Nat) (hc : c ∈ stepCols) :
    textAt (update_parent_stage_from_children p) c =
      if ∀ s ∈ p.children.map (fun t => textAt t c), s ≠ "" → s = "Done" ∨ s = "N/A" then "Done"
      else if ∀ s ∈ p.children.map (fun t => textAt t c), s = "" ∨ s = "WIP" then ""
      else "WIP" := by
  rw [update_parent_stage_textAt p hne hlen hc, aggStatus_spec]

/-- Witness for `c1_parent_aggregation` at a concrete parent. -/
theorem c1_parent_aggregation_witness :
    ((TNode.mk blankRow 0 "" [blankChild]).children ≠ []
      ∧ (TNode.mk blankRow 0 "" [blankChild]).values.length = 26 ∧ 15 ∈ stepCols)
    ∧ textAt (update_parent_stage_from_children (TNode.mk blankRow 0 "" [blankChild])) 15 =
      if ∀ s ∈ (TNode.mk blankRow 0 "" [blankChild]).children.map (fun t => textAt t 15),
          s ≠ "" → s = "Done" ∨ s = "N/A" then "Done"
      else if ∀ s ∈ (TNode.mk blankRow 0 "" [blankChild]).children.map (fun t => textAt t 15),
          s = "" ∨ s = "WIP" then ""
      else "WIP" :=
  ⟨⟨by simp, by decide, by decide⟩,
    c1_parent_aggregation (TNode.mk blankRow 0 "" [blankChild])
      (by simp) (by decide) 15 (by decide)⟩

/-! # Claim C2 -/

/-- C2 counterexample: the left-click step branch of `on_click` cycles the
clicked child cell but never calls `update_parent_stage_from_children`, so
the invariant breaks.  Parent step 15 holds "Done" (its aggregation value
while the only child was blank); after the left click the child is "WIP",
whose aggregation is blank, yet the parent still reads "Done". -/
theorem c2_counterexample :
    textAt (left_click_child_step "" ""
      (TNode.mk (blankRow.set 15 "Done") 0 "" [blankChild]) 0 15) 15 = "Done"
    ∧ aggStatus ((left_click_child_step "" ""
        (TNode.mk (blankRow.set 15 "Done") 0 "" [blankChild]) 0 15).children.map
          (fun t => textAt t 15)) = ""
    ∧ ("Done" : String) ≠ "" := by
  refine ⟨?_, ?_, by decide⟩
  · rfl
  · rfl

/-- C2 amended: of the three operations the claim names, only the
right-click cascade recomputes the parent aggregation; after
`on_right_click_step` on a child the parent satisfies the (branch-ordered)
aggregation invariant at every step column. -/
theorem c2_right_click_restores_invariant
    (nowTxt idleTxt : String) (p : TNode) (i c : Nat)
    (hlen : p.values.length = 26) (hi : i < p.children.length)
    (hc1 : COL_STEP_START ≤ c) (hc2 : c ≤ COL_STEP_END) :
    ∀ c' ∈ stepCols,
      textAt (on_right_click_step nowTxt idleTxt p i c) c' =
        aggStatus ((on_right_click_step nowTxt idleTxt p i c).children.map
          (fun t => textAt t c')) := by
  intro c' hc'
  unfold on_right_click_step
  rw [if_pos ⟨hc1, hc2⟩]
  have hqch : (withChildren p (p.children.set i
      (touch_last_update nowTxt idleTxt (right_click_cascade (p.children.getD i default) c)))).children ≠ [] := by
    show p.children.set i _ ≠ []
    intro h
    rw [← List.length_eq_zero, List.length_set] at h
    omega
  have hqlen : (withChildren p (p.children.set i
      (touch_last_update nowTxt idleTxt (right_click_cascade (p.children.getD i default) c)))).values.length = 26 := hlen
  rw [update_parent_stage_textAt _ hqch hqlen hc', children_update_parent_stage]

/-- Witness for `c2_right_click_restores_invariant` at a concrete parent. -/
theorem c2_right_click_restores_invariant_witness :
    ((TNode.mk blankRow 0 "" [blankChild]).values.length = 26
      ∧ 0 < (TNode.mk blankRow 0 "" [blankChild]).children.length
      ∧ COL_STEP_START ≤ 16 ∧ 16 ≤ COL_STEP_END)
    ∧ ∀ c' ∈ stepCols,
        textAt (on_right_click_step "n" "i" (TNode.mk blankRow 0 "" [blankChild]) 0 16) c' =
          aggStatus ((on_right_click_step "n" "i"
            (TNode.mk blankRow 0 "" [blankChild]) 0 16).children.map (fun t => textAt t c')) :=
  ⟨⟨by decide, by decide, by decide, by decide⟩,
    c2_right_click_restores_invariant "n" "i" (TNode.mk blankRow 0 "" [blankChild]) 0 16
      (by decide) (by decide) (by decide) (by decide)⟩

/-! # Claim C3 -/

/-- Counting via a conditional fold equals `countP`. -/
theorem foldl_count_eq_countP (pred : Nat → Bool) :
    ∀ (l : List Nat) (n : Nat),
    l.foldl (fun d c => if pred c then d + 1 else d) n = n + l.countP pred := by
  intro l
  induction l with
  | nil => intro n; simp
  | cons c0 rest ih =>
    intro n
    rw [List.foldl_cons, List.countP_cons]
    by_cases h : pred c0 = true
    · rw [if_pos h, ih]
      simp [h]
      omega
    · rw [if_neg h, ih]
      simp [h]

/-- C3: the computed progress equals ten times the number of steps whose
status is Done or N/A (hence the integer percentage `int((d / 10) * 100)`,
rendered here as `d * 100 / 10`); blank and WIP steps contribute nothing. -/
theorem c3_progress_formula (t : TNode) :
    (stepCols.filter (fun c => textAt t c = "Done" ∨ textAt t c = "N/A")).length ≤ 10
    ∧ update_progress_pct t =
        (stepCols.filter (fun c => textAt t c = "Done" ∨ textAt t c = "N/A")).length * 100 / 10
    ∧ update_progress_pct t =
        10 * (stepCols.filter (fun c => textAt t c = "Done" ∨ textAt t c = "N/A")).length := by
  have hdone : update_progress_done t =
      (stepCols.filter (fun c => textAt t c = "Done" ∨ textAt t c = "N/A")).length := by
    unfold update_progress_done
    rw [foldl_count_eq_countP, Nat.zero_add, List.countP_eq_length_filter]
    refine congrArg List.length (List.filter_congr ?_)
    intro c _
    by_cases h1 : textAt t c = "Done" <;> by_cases h2 : textAt t c = "N/A" <;>
      simp [h1, h2]
  have hle : (stepCols.filter (fun c => textAt t c = "Done" ∨ textAt t c = "N/A")).length ≤ 10 := by
    have := List.length_filter_le (fun c => decide (textAt t c = "Done" ∨ textAt t c = "N/A")) stepCols
    simpa using this
  refine ⟨hle, ?_, ?_⟩
  · unfold update_progress_pct
    rw [hdone]
  · unfold update_progress_pct
    rw [hdone]
    omega

/-! # Claim C5 -/

/-- A click on a full-width row rewrites exactly the clicked step cell (the
timestamp columns are outside the step range). -/
theorem textAt_on_click_step (nowTxt idleTxt : String) (t : TNode) (c : Nat)
    (hc : c ∈ stepCols) (hlen : t.values.length = 26) :
    textAt (on_click_step nowTxt idleTxt t c) c = stepNext (textAt t c)
    ∧ (on_click_step nowTxt idleTxt t c).values.length = 26 := by
  obtain ⟨hc1, hc2⟩ := mem_stepCols.mp hc
  unfold on_click_step touch_last_update setText textAt COL_LAST_UPDATE COL_IDLE
  simp only [values_mk]
  constructor
  · rw [getD_set_ne (by omega), getD_set_ne (by omega)]
    refine getD_set_self ?_ _ _
    rw [hlen]
    omega
  · simp [hlen]

/-- C5: for a step cell currently holding a member of the cycle, a click
advances it to the next member of blank → WIP → Done → N/A → blank, and
four clicks restore the original value. -/
theorem c5_click_cycles (nowTxt idleTxt : String) (t : TNode) (c : Nat)
    (hc : c ∈ stepCols) (hlen : t.values.length = 26)
    (hv : textAt t c ∈ STEP_CYCLE) :
    (textAt t c = "" → textAt (on_click_step nowTxt idleTxt t c) c = "WIP")
    ∧ (textAt t c = "WIP" → textAt (on_click_step nowTxt idleTxt t c) c = "Done")
    ∧ (textAt t c = "Done" → textAt (on_click_step nowTxt idleTxt t c) c = "N/A")
    ∧ (textAt t c = "N/A" → textAt (on_click_step nowTxt idleTxt t c) c = "")
    ∧ textAt (on_click_step nowTxt idleTxt
        (on_click_step nowTxt idleTxt
          (on_click_step nowTxt idleTxt
            (on_click_step nowTxt idleTxt t c) c) c) c) c = textAt t c := by
  obtain ⟨h1, l1⟩ := textAt_on_click_step nowTxt idleTxt t c hc hlen
  obtain ⟨h2, l2⟩ := textAt_on_click_step nowTxt idleTxt _ c hc l1
  obtain ⟨h3, l3⟩ := textAt_on_click_step nowTxt idleTxt _ c hc l2
  obtain ⟨h4, _⟩ := textAt_on_click_step nowTxt idleTxt _ c hc l3
  refine ⟨fun hz => by rw [h1, hz]; rfl,
          fun hz => by rw [h1, hz]; rfl,
          fun hz => by rw [h1, hz]; rfl,
          fun hz => by rw [h1, hz]; rfl, ?_⟩
  rw [h4, h3, h2, h1]
  have : textAt t c = "" ∨ textAt t c = "WIP" ∨ textAt t c = "Done" ∨ textAt t c = "N/A" := by
    simpa [STEP_CYCLE] using hv
  rcases this with hz | hz | hz | hz <;> rw [hz] <;> rfl

/-- Witness for `c5_click_cycles` at a concrete row. -/
theorem c5_click_cycles_witness :
    (15 ∈ stepCols ∧ blankChild.values.length = 26 ∧ textAt blankChild 15 ∈ STEP_CYCLE)
    ∧ (textAt blankChild 15 = "" → textAt (on_click_step "n" "i" blankChild 15) 15 = "WIP")
    ∧ (textAt blankChild 15 = "WIP" → textAt (on_click_step "n" "i" blankChild 15) 15 = "Done")
    ∧ (textAt blankChild 15 = "Done" → textAt (on_click_step "n" "i" blankChild 15) 15 = "N/A")
    ∧ (textAt blankChild 15 = "N/A" → textAt (on_click_step "n" "i" blankChild 15) 15 = "")
    ∧ textAt (on_click_step "n" "i"
        (on_click_step "n" "i"
          (on_click_step "n" "i"
            (on_click_step "n" "i" blankChild 15) 15) 15) 15) 15 = textAt blankChild 15 :=
  ⟨⟨by decide, by decide, by decide⟩,
    c5_click_cycles "n" "i" blankChild 15 (by decide) (by decide) (by decide)⟩

/-! # Claim C4 -/

theorem splitTailAux_append (s : List Char) :
    ∀ (a acc : List Char), splitTailAux (a ++ '_' :: s) acc = splitTailAux s [] := by
  intro a
  induction a with
  | nil => intro acc; simp [splitTailAux]
  | cons c cs ih =>
    intro acc
    by_cases h : c = '_' <;> simp [splitTailAux, h] <;> apply ih

theorem splitTailAux_no_underscore :
    ∀ (s : List Char), '_' ∉ s → ∀ acc : List Char, splitTailAux s acc = acc.reverse ++ s := by
  intro s
  induction s with
  | nil => intro _ acc; simp [splitTailAux]
  | cons c cs ih =>
    intro h acc
    have hc : c ≠ '_' := fun hh => h (hh ▸ List.mem_cons_self c cs)
    rw [splitTailAux, if_neg hc, ih (fun hm => h (List.mem_cons_of_mem _ hm)) (c :: acc)]
    simp

/-- `split("_")[-1]` recovers the suffix of a generated case identifier
whenever the suffix itself has no underscore (the generated `{n:02d}`
suffixes never do), regardless of underscores in the project name. -/
theorem splitLastTail_mkCase (p : String) (l : Nat) (s : String) (hs : '_' ∉ s.data) :
    splitLastTail (mkCase p l s) = s := by
  unfold splitLastTail mkCase
  have hd : (p ++ "_L" ++ Nat.repr l ++ "_" ++ s).data
      = (p.data ++ '_' :: 'L' :: (Nat.repr l).data) ++ '_' :: s.data := by
    simp [String.data_append]
  rw [hd, splitTailAux_append, splitTailAux_no_underscore s.data hs []]
  cases s
  rfl

/-- A generated case identifier is never the empty string (it contains an
underscore), so the truthiness tests of `on_edit` and `after_drop` see it. -/
theorem mkCase_ne_empty (p : String) (l : Nat) (s : String) : mkCase p l s ≠ "" := by
  intro h
  have hd := congrArg String.data h
  simp [mkCase, String.data_append] at hd

/-- C4 amended: editing the project cell rebuilds the case identifier from
the new (stripped) project name, the current stored level and the old
numeric suffix, never drawing a fresh sequence number; `after_drop` does
the same with the post-drop level, but only for rows whose stripped
project text is non-empty — a case-bearing row with a blank project name
keeps its old case identifier unchanged. -/
theorem c4_case_suffix_preserved (t : TNode) (seqc : Nat) (nt : String)
    (p : String) (l : Nat) (s : String)
    (hlen : t.values.length = 26)
    (hcase : t.caseTag = mkCase p l s) (hs : '_' ∉ s.data) :
    ((on_edit_project seqc (setText t COL_PROJECT nt)).1).caseTag
        = mkCase (pyStrip nt) t.level s
    ∧ (on_edit_project seqc (setText t COL_PROJECT nt)).2 = seqc
    ∧ (pyStrip (textAt t COL_PROJECT) ≠ "" →
        (afterDropNode t).caseTag = mkCase (pyStrip (textAt t COL_PROJECT)) t.level s)
    ∧ (pyStrip (textAt t COL_PROJECT) = "" → (afterDropNode t).caseTag = t.caseTag) := by
  obtain ⟨vs, lvl, cs, ch⟩ := t
  simp only [values_mk, level_mk, caseTag_mk, children_mk] at hlen hcase ⊢
  subst hcase
  have hne : mkCase p l s ≠ "" := mkCase_ne_empty p l s
  have hsplit : splitLastTail (mkCase p l s) = s := splitLastTail_mkCase p l s hs
  refine ⟨?_, ?_, ?_, ?_⟩
  · unfold on_edit_project setText
    rw [if_pos (by simpa using hne)]
    simp only [caseTag_mk, setCase, values_mk, level_mk, textAt]
    rw [hsplit, getD_set_self (by rw [hlen]; unfold COL_PROJECT; omega) _ _]
  · unfold on_edit_project setText
    rw [if_pos (by simpa using hne)]
  · intro hproj
    unfold afterDropNode
    simp only [textAt, values_mk] at hproj ⊢
    rw [if_pos ⟨hproj, hne⟩]
    simp [setCase, hsplit]
  · intro hproj
    unfold afterDropNode
    simp only [textAt, values_mk] at hproj ⊢
    rw [if_neg (fun hand => hand.1 hproj)]
    rfl

/-- Witness for `c4_case_suffix_preserved` at a concrete row. -/
theorem c4_case_suffix_preserved_witness :
    ((TNode.mk blankRow 1 "A_L1_07" []).values.length = 26
      ∧ (TNode.mk blankRow 1 "A_L1_07" []).caseTag = mkCase "A" 1 "07"
      ∧ '_' ∉ ("07" : String).data)
    ∧ ((on_edit_project 5 (setText (TNode.mk blankRow 1 "A_L1_07" []) COL_PROJECT "B")).1).caseTag
        = mkCase (pyStrip "B") (TNode.mk blankRow 1 "A_L1_07" []).level "07"
    ∧ (on_edit_project 5 (setText (TNode.mk blankRow 1 "A_L1_07" []) COL_PROJECT "B")).2 = 5
    ∧ (pyStrip (textAt (TNode.mk blankRow 1 "A_L1_07" []) COL_PROJECT) ≠ "" →
        (afterDropNode (TNode.mk blankRow 1 "A_L1_07" [])).caseTag
          = mkCase (pyStrip (textAt (TNode.mk blankRow 1 "A_L1_07" []) COL_PROJECT))
              (TNode.mk blankRow 1 "A_L1_07" []).level "07")
    ∧ (pyStrip (textAt (TNode.mk blankRow 1 "A_L1_07" []) COL_PROJECT) = "" →
        (afterDropNode (TNode.mk blankRow 1 "A_L1_07" [])).caseTag
          = (TNode.mk blankRow 1 "A_L1_07" []).caseTag) :=
  ⟨⟨by decide, by decide, by decide⟩,
    c4_case_suffix_preserved (TNode.mk blankRow 1 "A_L1_07" []) 5 "B" "A" 1 "07"
      (by decide) (by decide) (by decide)⟩

/-- C4 counterexample: a row whose project text is blank but which carries
the case identifier "_L1_01" (the state `on_edit` itself produces when a
project name is cleared).  After a drop that moves it to depth 0 the
stored level becomes 0, but `after_drop` skips blank-project rows, so the
case identifier stays "_L1_01" instead of the claimed "_L0_01" rebuilt
from the new level. -/
theorem c4_counterexample :
    ((dropUpdate [TNode.mk blankRow 1 "_L1_01" []]).headD default).level = 0
    ∧ ((dropUpdate [TNode.mk blankRow 1 "_L1_01" []]).headD default).caseTag = "_L1_01"
    ∧ ("_L1_01" : String) ≠ "_L0_01" := by
  refine ⟨by decide, by decide, by decide⟩

/-! # Claim C6 -/

theorem addWorkdaysLoop_ge (d n : Nat) : d ≤ addWorkdaysLoop d n := by
  induction d, n using addWorkdaysLoop.induct with
  | case1 d => rw [addWorkdaysLoop]; simp
  | case2 d n h hw ih => rw [addWorkdaysLoop, if_neg h, if_pos hw]; omega
  | case3 d n h hw ih => rw [addWorkdaysLoop, if_neg h, if_neg hw]; omega

theorem addWorkdaysLoop_count (d n : Nat) :
    countWorkdays d (addWorkdaysLoop d n) = n := by
  induction d, n using addWorkdaysLoop.induct with
  | case1 d =>
    rw [addWorkdaysLoop]
    simp only [if_pos rfl]
    rw [countWorkdays]
    simp
  | case2 d n h hw ih =>
    rw [addWorkdaysLoop, if_neg h, if_pos hw]
    have hge : d + 1 ≤ addWorkdaysLoop (d + 1) (n - 1) := addWorkdaysLoop_ge _ _
    rw [countWorkdays, if_pos (by omega), if_pos hw, ih]
    omega
  | case3 d n h hw ih =>
    rw [addWorkdaysLoop, if_neg h, if_neg hw]
    have hge : d + 1 ≤ addWorkdaysLoop (d + 1) n := addWorkdaysLoop_ge _ _
    rw [countWorkdays, if_pos (by omega), if_neg hw, ih]
    omega

theorem addWorkdaysLoop_weekday :
    ∀ (d n : Nat), n ≠ 0 → isWeekday (addWorkdaysLoop d n) := by
  intro d n
  induction d, n using addWorkdaysLoop.induct with
  | case1 d => intro h; exact absurd rfl h
  | case2 d n h hw ih =>
    intro _
    rw [addWorkdaysLoop, if_neg h, if_pos hw]
    by_cases h1 : n - 1 = 0
    · rw [h1, addWorkdaysLoop]
      simpa [isWeekday] using hw
    · exact ih h1
  | case3 d n h hw ih =>
    intro _
    rw [addWorkdaysLoop, if_neg h, if_neg hw]
    exact ih h

/-- C6: when the weight text parses as `n` working days, the edit handler
sets the end date to `add_workdays(start, n)`, which is at or after the
start, lands on a working day whenever `n > 0`, equals the start when
`n = 0`, and has exactly `n` working days in the half-open interval after
the start — weekend days are skipped and contribute nothing to the count. -/
theorem c6_weight_workday_end (s : Nat) (txt : String) (n : Nat)
    (h : parse_weight_days txt = some n) :
    on_edit_weight s txt = some (add_workdays s n)
    ∧ s ≤ add_workdays s n
    ∧ countWorkdays s (add_workdays s n) = n
    ∧ (0 < n → isWeekday (add_workdays s n))
    ∧ (n = 0 → add_workdays s n = s) := by
  refine ⟨?_, addWorkdaysLoop_ge s n, addWorkdaysLoop_count s n,
    fun hn => addWorkdaysLoop_weekday s n (by omega), fun hn => ?_⟩
  · unfold on_edit_weight
    rw [h]
    rfl
  · subst hn
    rw [add_workdays, addWorkdaysLoop]
    simp

/-- Witness for `c6_weight_workday_end`: two working days from a Monday
(Julian day 0) is the Wednesday two days later. -/
theorem c6_weight_workday_end_witness :
    parse_weight_days "2d" = some 2
    ∧ (on_edit_weight 0 "2d" = some (add_workdays 0 2)
       ∧ 0 ≤ add_workdays 0 2
       ∧ countWorkdays 0 (add_workdays 0 2) = 2
       ∧ (0 < 2 → isWeekday (add_workdays 0 2))
       ∧ (2 = 0 → add_workdays 0 2 = 0)) :=
  ⟨by decide, c6_weight_workday_end 0 "2d" 2 (by decide)⟩

/-! # Claim C9 -/

mutual
theorem canonNode_recompute (d : Nat) (t : TNode) :
    CanonNode d (recomputeNode (min d 9) t) := by
  obtain ⟨vs, lvl, cs, ch⟩ := t
  rw [recomputeNode, CanonNode]
  refine ⟨rfl, min_le_right _ _, ?_⟩
  have hmm : min (min d 9 + 1) 9 = min (d + 1) 9 := by omega
  rw [hmm]
  exact canonList_recompute (d + 1) ch

theorem canonList_recompute (d : Nat) (f : List TNode) :
    CanonList d (recomputeList (min d 9) f) := by
  cases f with
  | nil => rw [recomputeList, CanonList]; trivial
  | cons t ts =>
    rw [recomputeList, CanonList]
    exact ⟨canonNode_recompute d t, canonList_recompute d ts⟩
end

/-- C9: after `recompute_levels` (which runs after every drop, every
`add_child` and every restore) each node at depth `d` stores exactly
`min d 9`, and in particular no stored level exceeds 9. -/
theorem c9_levels_canonical (f : List TNode) : CanonList 0 (recompute_levels f) := by
  have h := canonList_recompute 0 f
  exact h


/-! # Claim C10 -/

theorem recomputeList_append (l : Nat) :
    ∀ (a b : List TNode), recomputeList l (a ++ b) = recomputeList l a ++ recomputeList l b := by
  intro a
  induction a with
  | nil => intro b; rfl
  | cons t ts ih =>
    intro b
    rw [List.cons_append, recomputeList, ih, recomputeList]
    rfl

theorem add_child_pipeline_child (l : Nat) (p : TNode) (c2 : TNode) :
    (update_parent_stage_from_children
      (recomputeNode l (withChildren p (p.children ++ [c2])))).children.getLastD default
      = recomputeNode (min (l + 1) 9) c2 := by
  unfold withChildren
  rw [recomputeNode, children_update_parent_stage, children_mk,
      recomputeList_append, recomputeList, recomputeList, List.getLastD_concat]

theorem makeItemValues_length (pr : String) (l : Nat) (t n : String) :
    (makeItemValues pr l t n).length = 26 := rfl

theorem recomputeNode_fields (l : Nat) (t : TNode) :
    (recomputeNode l t).level = l
    ∧ (recomputeNode l t).caseTag = t.caseTag
    ∧ ∀ c, c ≠ COL_LEVEL → textAt (recomputeNode l t) c = textAt t c := by
  obtain ⟨vs, lvl, cs, ch⟩ := t
  rw [recomputeNode]
  refine ⟨rfl, rfl, ?_⟩
  intro c hc
  simp only [textAt, values_mk]
  exact getD_set_ne (fun h => hc h.symm) _ _

/-- C10 amended: a child created by `add_child` under a parent at depth `d`
with canonical stored level inherits the stripped project text and the
stripped PIC text (blank stays blank), ends with stored level
`min(parent level + 1, 9)` — capped by the `recompute_levels` run inside
`add_child`, not always parent level plus one — and receives a fresh case
identifier `proj_L{parent level + 1}_{seq:02d}` exactly when the stripped
project text is non-empty, in which case the sequence counter advances. -/
theorem c10_child_inheritance (d seqc : Nat) (today now : String) (p : TNode)
    (hp : p.level = min d 9) :
    textAt ((add_child_at_depth d seqc today now p).children.getLastD default) COL_PROJECT
        = pyStrip (textAt p COL_PROJECT)
    ∧ textAt ((add_child_at_depth d seqc today now p).children.getLastD default) COL_PIC
        = pyStrip (textAt p COL_PIC)
    ∧ ((add_child_at_depth d seqc today now p).children.getLastD default).level
        = min (p.level + 1) 9
    ∧ (((add_child_at_depth d seqc today now p).children.getLastD default).caseTag ≠ ""
        ↔ pyStrip (textAt p COL_PROJECT) ≠ "")
    ∧ (pyStrip (textAt p COL_PROJECT) ≠ "" →
        ((add_child_at_depth d seqc today now p).children.getLastD default).caseTag
          = mkCase (pyStrip (textAt p COL_PROJECT)) (p.level + 1) (seq2d (seqc + 1)))
    ∧ (add_child seqc today now p).2
        = (if pyStrip (textAt p COL_PROJECT) = "" then seqc else seqc + 1) := by
  have hlv : min (min d 9 + 1) 9 = min (p.level + 1) 9 := by rw [hp]
  by_cases hproj : pyStrip (textAt p COL_PROJECT) = "" <;>
    by_cases hpic : pyStrip (textAt p COL_PIC) = ""
  · -- proj blank, pic blank
    have hpair : add_child seqc today now p =
        (withChildren p (p.children ++
          [make_item (pyStrip (textAt p COL_PROJECT)) (p.level + 1) today now]), seqc) := by
      unfold add_child
      simp [hproj, hpic]
    have hchild : (add_child_at_depth d seqc today now p).children.getLastD default
        = recomputeNode (min (min d 9 + 1) 9)
            (make_item (pyStrip (textAt p COL_PROJECT)) (p.level + 1) today now) := by
      unfold add_child_at_depth
      rw [hpair]
      exact add_child_pipeline_child (min d 9) p _
    obtain ⟨hl, hcs, htx⟩ := recomputeNode_fields (min (min d 9 + 1) 9)
      (make_item (pyStrip (textAt p COL_PROJECT)) (p.level + 1) today now)
    rw [hchild]
    refine ⟨?_, ?_, ?_, ?_, ?_, ?_⟩
    · rw [htx COL_PROJECT (by decide)]; rfl
    · rw [htx COL_PIC (by decide), hpic]; rfl
    · rw [hl, hlv]
    · rw [hcs]; unfold make_item; simp [hproj]
    · intro h; exact absurd hproj h
    · rw [hpair, if_pos hproj]
  · -- proj blank, pic set
    have hpair : add_child seqc today now p =
        (withChildren p (p.children ++
          [setText (make_item (pyStrip (textAt p COL_PROJECT)) (p.level + 1) today now)
            COL_PIC (pyStrip (textAt p COL_PIC))]), seqc) := by
      unfold add_child
      simp [hproj, hpic]
    have hchild : (add_child_at_depth d seqc today now p).children.getLastD default
        = recomputeNode (min (min d 9 + 1) 9)
            (setText (make_item (pyStrip (textAt p COL_PROJECT)) (p.level + 1) today now)
              COL_PIC (pyStrip (textAt p COL_PIC))) := by
      unfold add_child_at_depth
      rw [hpair]
      exact add_child_pipeline_child (min d 9) p _
    obtain ⟨hl, hcs, htx⟩ := recomputeNode_fields (min (min d 9 + 1) 9)
      (setText (make_item (pyStrip (textAt p COL_PROJECT)) (p.level + 1) today now)
        COL_PIC (pyStrip (textAt p COL_PIC)))
    rw [hchild]
    refine ⟨?_, ?_, ?_, ?_, ?_, ?_⟩
    · rw [htx COL_PROJECT (by decide)]
      unfold setText make_item textAt
      simp only [values_mk]
      rw [getD_set_ne (by decide)]
      rfl
    · rw [htx COL_PIC (by decide)]
      unfold setText make_item textAt
      simp only [values_mk]
      exact getD_set_self (by rw [makeItemValues_length]; decide) _ _
    · rw [hl, hlv]
    · rw [hcs]; unfold setText make_item; simp [hproj]
    · intro h; exact absurd hproj h
    · rw [hpair, if_pos hproj]
  · -- proj set, pic blank
    have hpair : add_child seqc today now p =
        (withChildren p (p.children ++
          [setCase (make_item (pyStrip (textAt p COL_PROJECT)) (p.level + 1) today now)
            (mkCase (pyStrip (textAt p COL_PROJECT)) (p.level + 1) (seq2d (seqc + 1)))]), seqc + 1) := by
      unfold add_child
      simp [hproj, hpic]
    have hchild : (add_child_at_depth d seqc today now p).children.getLastD default
        = recomputeNode (min (min d 9 + 1) 9)
            (setCase (make_item (pyStrip (textAt p COL_PROJECT)) (p.level + 1) today now)
              (mkCase (pyStrip (textAt p COL_PROJECT)) (p.level + 1) (seq2d (seqc + 1)))) := by
      unfold add_child_at_depth
      rw [hpair]
      exact add_child_pipeline_child (min d 9) p _
    obtain ⟨hl, hcs, htx⟩ := recomputeNode_fields (min (min d 9 + 1) 9)
      (setCase (make_item (pyStrip (textAt p COL_PROJECT)) (p.level + 1) today now)
        (mkCase (pyStrip (textAt p COL_PROJECT)) (p.level + 1) (seq2d (seqc + 1))))
    rw [hchild]
    refine ⟨?_, ?_, ?_, ?_, ?_, ?_⟩
    · rw [htx COL_PROJECT (by decide)]; rfl
    · rw [htx COL_PIC (by decide), hpic]; rfl
    · rw [hl, hlv]
    · rw [hcs]
      unfold setCase
      simp only [caseTag_mk]
      exact ⟨fun _ => hproj, fun _ => mkCase_ne_empty _ _ _⟩
    · intro _; rw [hcs]; rfl
    · rw [hpair, if_neg hproj]
  · -- proj set, pic set
    have hpair : add_child seqc today now p =
        (withChildren p (p.children ++
          [setCase (setText (make_item (pyStrip (textAt p COL_PROJECT)) (p.level + 1) today now)
              COL_PIC (pyStrip (textAt p COL_PIC)))
            (mkCase (pyStrip (textAt p COL_PROJECT)) (p.level + 1) (seq2d (seqc + 1)))]), seqc + 1) := by
      unfold add_child
      simp [hproj, hpic]
    have hchild : (add_child_at_depth d seqc today now p).children.getLastD default
        = recomputeNode (min (min d 9 + 1) 9)
            (setCase (setText (make_item (pyStrip (textAt p COL_PROJECT)) (p.level + 1) today now)
              COL_PIC (pyStrip (textAt p COL_PIC)))
              (mkCase (pyStrip (textAt p COL_PROJECT)) (p.level + 1) (seq2d (seqc + 1)))) := by
      unfold add_child_at_depth
      rw [hpair]
      exact add_child_pipeline_child (min d 9) p _
    obtain ⟨hl, hcs, htx⟩ := recomputeNode_fields (min (min d 9 + 1) 9)
      (setCase (setText (make_item (pyStrip (textAt p COL_PROJECT)) (p.level + 1) today now)
          COL_PIC (pyStrip (textAt p COL_PIC)))
        (mkCase (pyStrip (textAt p COL_PROJECT)) (p.level + 1) (seq2d (seqc + 1))))
    rw [hchild]
    refine ⟨?_, ?_, ?_, ?_, ?_, ?_⟩
    · rw [htx COL_PROJECT (by decide)]
      unfold setCase setText make_item textAt
      simp only [values_mk]
      rw [getD_set_ne (by decide)]
      rfl
    · rw [htx COL_PIC (by decide)]
      unfold setCase setText make_item textAt
      simp only [values_mk]
      exact getD_set_self (by rw [makeItemValues_length]; decide) _ _
    · rw [hl, hlv]
    · rw [hcs]
      unfold setCase
      simp only [caseTag_mk]
      exact ⟨fun _ => hproj, fun _ => mkCase_ne_empty _ _ _⟩
    · intro _; rw [hcs]; rfl
    · rw [hpair, if_neg hproj]

/-- Witness for `c10_child_inheritance` at a concrete parent. -/
theorem c10_child_inheritance_witness :
    (TNode.mk (blankRow.set 0 "A") 0 "" []).level = min 0 9
    ∧ (textAt ((add_child_at_depth 0 0 "t" "n"
          (TNode.mk (blankRow.set 0 "A") 0 "" [])).children.getLastD default) COL_PROJECT
        = pyStrip (textAt (TNode.mk (blankRow.set 0 "A") 0 "" []) COL_PROJECT)
      ∧ textAt ((add_child_at_depth 0 0 "t" "n"
          (TNode.mk (blankRow.set 0 "A") 0 "" [])).children.getLastD default) COL_PIC
        = pyStrip (textAt (TNode.mk (blankRow.set 0 "A") 0 "" []) COL_PIC)
      ∧ ((add_child_at_depth 0 0 "t" "n"
          (TNode.mk (blankRow.set 0 "A") 0 "" [])).children.getLastD default).level
        = min ((TNode.mk (blankRow.set 0 "A") 0 "" []).level + 1) 9
      ∧ (((add_child_at_depth 0 0 "t" "n"
          (TNode.mk (blankRow.set 0 "A") 0 "" [])).children.getLastD default).caseTag ≠ ""
        ↔ pyStrip (textAt (TNode.mk (blankRow.set 0 "A") 0 "" []) COL_PROJECT) ≠ "")
      ∧ (pyStrip (textAt (TNode.mk (blankRow.set 0 "A") 0 "" []) COL_PROJECT) ≠ "" →
          ((add_child_at_depth 0 0 "t" "n"
            (TNode.mk (blankRow.set 0 "A") 0 "" [])).children.getLastD default).caseTag
            = mkCase (pyStrip (textAt (TNode.mk (blankRow.set 0 "A") 0 "" []) COL_PROJECT))
                ((TNode.mk (blankRow.set 0 "A") 0 "" []).level + 1) (seq2d (0 + 1)))
      ∧ (add_child 0 "t" "n" (TNode.mk (blankRow.set 0 "A") 0 "" [])).2
        = (if pyStrip (textAt (TNode.mk (blankRow.set 0 "A") 0 "" []) COL_PROJECT) = ""
           then 0 else 0 + 1)) :=
  ⟨by decide, c10_child_inheritance 0 0 "t" "n" (TNode.mk (blankRow.set 0 "A") 0 "" []) (by decide)⟩

/-- C10 counterexample: a parent nested nine levels deep has stored level 9
(canonical), so the claim requires the new child to get level 10; the
`recompute_levels` run inside `add_child` caps levels at 9 and the child
ends with level 9, not the parent level plus one.  The expression performs
the whole pipeline on a concrete tree: append the child, recompute levels
from the roots, then aggregate the parent (which touches no level). -/
theorem c10_counterexample :
    (TNode.mk (blankRow.set 0 "A") 9 "" []).level + 1 = 10
    ∧ ((update_parent_stage_from_children (descendFirst 9 ((recompute_levels
        [nestChain 9 ((add_child 0 "" ""
          (TNode.mk (blankRow.set 0 "A") 9 "" [])).1)]).headD
          default))).children.getLastD default).level = 9
    ∧ (9 : Nat) ≠ 10 := by
  refine ⟨by decide, by decide, by decide⟩


/-! # Claims C7 and C8 -/

theorem range_map_getD (n : Nat) (vs : List String) (h : vs.length = n) :
    (List.range n).map (fun i => vs.getD i "") = vs := by
  apply List.ext_getElem?
  intro i
  rw [List.getElem?_map]
  by_cases hi : i < n
  · rw [List.getElem?_range hi]
    rw [Option.map_some']
    rw [List.getElem?_eq_getElem (by omega), List.getD_eq_getElem?_getD,
        List.getElem?_eq_getElem (by omega)]
    rfl
  · rw [List.getElem?_eq_none (by simpa using hi), List.getElem?_eq_none (by omega)]
    rfl

theorem setTexts_go_getElem? :
    ∀ (vs acc : List String) (i : Nat), i + vs.length ≤ acc.length → ∀ (j : Nat),
    (setTexts.go acc i vs)[j]? =
      if i ≤ j ∧ j < i + vs.length then vs[j - i]? else acc[j]? := by
  intro vs
  induction vs with
  | nil =>
    intro acc i h j
    rw [setTexts.go, if_neg (by rw [List.length_nil]; omega)]
  | cons v rest ih =>
    intro acc i h j
    rw [List.length_cons] at h
    rw [setTexts.go, ih (acc.set i v) (i + 1) (by rw [List.length_set]; omega) j]
    by_cases hj1 : j = i
    · subst hj1
      rw [if_neg (by omega), if_pos ⟨le_rfl, by rw [List.length_cons]; omega⟩]
      rw [List.getElem?_set_eq_of_lt _ (by omega), Nat.sub_self]
      exact (List.getElem?_cons_zero).symm
    · by_cases hj2 : i + 1 ≤ j ∧ j < i + 1 + rest.length
      · rw [if_pos hj2, if_pos ⟨by omega, by rw [List.length_cons]; omega⟩]
        have hk : j - i = (j - (i + 1)) + 1 := by omega
        rw [hk, List.getElem?_cons_succ]
      · rw [if_neg hj2, if_neg (by rw [List.length_cons]; omega)]
        exact List.getElem?_set_ne (fun hh => hj1 hh.symm)

theorem setTexts_full (base vs : List String) (hb : base.length = 26) (hv : vs.length = 26) :
    setTexts base vs = vs := by
  rw [setTexts]
  apply List.ext_getElem?
  intro j
  rw [setTexts_go_getElem? vs base 0 (by omega) j]
  by_cases hj : j < 26
  · rw [if_pos (by omega), Nat.sub_zero]
  · rw [if_neg (by omega), List.getElem?_eq_none (by omega), List.getElem?_eq_none (by omega)]

theorem dumpList_eq_nil {ch : List TNode} (h : dumpList ch = []) : ch = [] := by
  cases ch with
  | nil => rfl
  | cons t ts => rw [dumpList] at h; exact absurd h (List.cons_ne_nil _ _)

mutual
/-- A later level recomputation absorbs an earlier one: `set_levels`
rewrites every stored level and every Level text from scratch, so the
whole-tree `recompute_levels` runs that nested `restore_tree` calls
perform mid-restore leave nothing observable once the final top-level run
has executed. -/
theorem recomputeNode_absorb (l l' : Nat) (t : TNode) :
    recomputeNode l (recomputeNode l' t) = recomputeNode l t := by
  obtain ⟨vs, lvl, cs, ch⟩ := t
  rw [recomputeNode, recomputeNode, recomputeNode, List.set_set,
      recomputeList_absorb (min (l + 1) 9) (min (l' + 1) 9) ch]

theorem recomputeList_absorb (l l' : Nat) (f : List TNode) :
    recomputeList l (recomputeList l' f) = recomputeList l f := by
  cases f with
  | nil => rw [recomputeList, recomputeList]
  | cons t ts =>
    rw [recomputeList, recomputeList, recomputeList,
        recomputeNode_absorb l l' t, recomputeList_absorb l l' ts]
end

/-- When both date texts of a row either fail to parse or name the restore
day, neither `setDate` of the restore changes its widget, no handler
fires, and the row passes through the date cascade unchanged. -/
theorem restore_row_dates_id (todayD : Nat) (now idle : String) (t : TNode)
    (hs : parseDate (textAt t COL_START) = none
        ∨ parseDate (textAt t COL_START) = some todayD)
    (he : parseDate (textAt t COL_END) = none
        ∨ parseDate (textAt t COL_END) = some todayD) :
    restore_row_dates todayD now idle t = t := by
  unfold restore_row_dates
  rcases hs with hs | hs <;> rcases he with he | he <;> rw [hs, he] <;> simp

mutual
theorem restore_dump_node (todayD : Nat) (now idle : String) (t : TNode)
    (h : Len26Node t) (hb : BenignNode todayD t) (rest : List EntryJ) :
    restoreList todayD now idle (dumpNode t :: rest)
      = ((t :: (restoreList todayD now idle rest).1),
          (restoreList todayD now idle rest).2) := by
  obtain ⟨vs, lvl, cs, ch⟩ := t
  rw [Len26Node] at h
  rw [BenignNode] at hb
  obtain ⟨hlen, hch⟩ := h
  obtain ⟨hb1, hb2, hbch⟩ := hb
  cases vs with
  | nil => rw [List.length_nil] at hlen; omega
  | cons v0 vrest =>
    have hvs : (List.range columnCount).map (fun i => (v0 :: vrest).getD i "") = v0 :: vrest :=
      range_map_getD columnCount (v0 :: vrest) hlen
    have hst : setTexts (makeItemValues v0 lvl (printDate todayD) now) (v0 :: vrest)
        = v0 :: vrest :=
      setTexts_full _ _ rfl hlen
    have hkids : restoreChildren todayD now idle
        (match dumpList ch with | [] => none | ks => some ks) = (ch, true) := by
      cases hd : dumpList ch with
      | nil =>
        have hc0 : ch = [] := dumpList_eq_nil hd
        subst hc0
        rw [restoreChildren]
      | cons e es =>
        rw [restoreChildren, ← hd]
        exact restore_dump_list todayD now idle ch hch hbch
    have hid : restore_row_dates todayD now idle (TNode.mk (v0 :: vrest) lvl cs ch)
        = TNode.mk (v0 :: vrest) lvl cs ch :=
      restore_row_dates_id todayD now idle _ hb1 hb2
    simp only [dumpNode, restoreList, hvs, List.getElem?_cons_zero, hkids,
      Option.getD_some, if_true, hst, hid]

theorem restore_dump_list (todayD : Nat) (now idle : String) (f : List TNode)
    (h : Len26List f) (hb : BenignList todayD f) :
    restoreList todayD now idle (dumpList f) = (f, true) := by
  cases f with
  | nil => rw [dumpList, restoreList]
  | cons t ts =>
    rw [Len26List] at h
    rw [BenignList] at hb
    rw [dumpList, restore_dump_node todayD now idle t h.1 hb.1 (dumpList ts),
        restore_dump_list todayD now idle ts h.2 hb.2]
end

mutual
theorem wfNode_len (d : Nat) (t : TNode) (h : WFNode d t) : Len26Node t := by
  obtain ⟨vs, lvl, cs, ch⟩ := t
  rw [WFNode] at h
  rw [Len26Node]
  exact ⟨h.1, wfList_len (d + 1) ch h.2.2.2⟩

theorem wfList_len (d : Nat) (f : List TNode) (h : WFList d f) : Len26List f := by
  cases f with
  | nil => rw [Len26List]; trivial
  | cons t ts =>
    rw [WFList] at h
    rw [Len26List]
    exact ⟨wfNode_len d t h.1, wfList_len d ts h.2⟩
end

mutual
theorem recomputeNode_id (d : Nat) (t : TNode) (h : WFNode d t) :
    recomputeNode (min d 9) t = t := by
  obtain ⟨vs, lvl, cs, ch⟩ := t
  rw [WFNode] at h
  obtain ⟨hlen, hlvl, htext, hch⟩ := h
  rw [recomputeNode]
  have h1 : vs.set COL_LEVEL ("L" ++ Nat.repr (min d 9)) = vs :=
    set_getD_self (by rw [hlen]; decide) htext
  have h2 : min (min d 9 + 1) 9 = min (d + 1) 9 := by omega
  rw [h1, h2, recomputeList_id (d + 1) ch hch, hlvl]

theorem recomputeList_id (d : Nat) (f : List TNode) (h : WFList d f) :
    recomputeList (min d 9) f = f := by
  cases f with
  | nil => rw [recomputeList]
  | cons t ts =>
    rw [WFList] at h
    rw [recomputeList, recomputeNode_id d t h.1, recomputeList_id d ts h.2]
end

/-- C7 amended: `restore_tree` after `dump_tree` reproduces the tree
structure and the case identifiers; stored levels and the Level-column
text are recomputed to `min(depth, 9)` by the final `recompute_levels`,
and the date-widget cascade rewrites the Start, End, Last-Update and Idle
cell texts of any row whose stored date texts parse to something other
than the restore day (re-stamping Last Update and possibly recomputing End
from the weight).  For trees with full rows, canonical levels and Level
texts, and per-row date texts that are invalid or name the restore day —
every tree the widget built and saved that day — the round trip is the
identity and raises nothing. -/
theorem c7_round_trip (todayD : Nat) (now idle : String) (f : List TNode)
    (h : WFList 0 f) (hb : BenignList todayD f) :
    roundTrip todayD now idle f = f
    ∧ (restore_tree todayD now idle (dump_tree f)).2 = true := by
  have hlen : Len26List f := wfList_len 0 f h
  have hr : restoreList todayD now idle (dumpList f) = (f, true) :=
    restore_dump_list todayD now idle f hlen hb
  have hrt : restore_tree todayD now idle (dump_tree f) = (recompute_levels f, true) := by
    unfold restore_tree dump_tree
    rw [hr]
  have hid : recompute_levels f = f := recomputeList_id 0 f h
  constructor
  · unfold roundTrip
    rw [hrt, hid]
  · rw [hrt]

/-- Witness for `c7_round_trip` at a concrete one-node tree (blank date
cells parse as invalid, so the cascade is quiet). -/
theorem c7_round_trip_witness :
    (WFList 0 [TNode.mk (blankRow.set 2 "L0") 0 "" []]
      ∧ BenignList 7 [TNode.mk (blankRow.set 2 "L0") 0 "" []])
    ∧ (roundTrip 7 "n" "i" [TNode.mk (blankRow.set 2 "L0") 0 "" []]
        = [TNode.mk (blankRow.set 2 "L0") 0 "" []]
      ∧ (restore_tree 7 "n" "i" (dump_tree [TNode.mk (blankRow.set 2 "L0") 0 "" []])).2
        = true) :=
  have hwf : WFList 0 [TNode.mk (blankRow.set 2 "L0") 0 "" []] := by
    rw [WFList, WFNode]
    refine ⟨⟨by decide, by decide, by decide, by rw [WFList]; trivial⟩, by rw [WFList]; trivial⟩
  have hbn : BenignList 7 [TNode.mk (blankRow.set 2 "L0") 0 "" []] := by
    rw [BenignList, BenignNode]
    refine ⟨⟨by decide, by decide, by rw [BenignList]; trivial⟩, by rw [BenignList]; trivial⟩
  ⟨⟨hwf, hbn⟩, c7_round_trip 7 "n" "i" [TNode.mk (blankRow.set 2 "L0") 0 "" []] hwf hbn⟩

/-- C7 counterexample: a single node whose stored level is 5.  `dump_tree`
records level 5, but `restore_tree` finishes with `recompute_levels`, so
the restored root has level 0: the round trip does not reproduce the
per-node level. -/
theorem c7_counterexample :
    ((roundTrip 0 "n" "i" [TNode.mk blankRow 5 "" []]).headD default).level = 0
    ∧ (TNode.mk blankRow 5 "" []).level = 5
    ∧ roundTrip 0 "n" "i" [TNode.mk blankRow 5 "" []] ≠ [TNode.mk blankRow 5 "" []] := by
  have hlen : Len26List [TNode.mk blankRow 5 "" []] := by
    rw [Len26List, Len26Node]
    exact ⟨⟨by decide, by rw [Len26List]; trivial⟩, by rw [Len26List]; trivial⟩
  have hbn : BenignList 0 [TNode.mk blankRow 5 "" []] := by
    rw [BenignList, BenignNode]
    exact ⟨⟨by decide, by decide, by rw [BenignList]; trivial⟩, by rw [BenignList]; trivial⟩
  have hr : restoreList 0 "n" "i" (dumpList [TNode.mk blankRow 5 "" []])
      = ([TNode.mk blankRow 5 "" []], true) :=
    restore_dump_list 0 "n" "i" _ hlen hbn
  have hrt : roundTrip 0 "n" "i" [TNode.mk blankRow 5 "" []]
      = recompute_levels [TNode.mk blankRow 5 "" []] := by
    unfold roundTrip restore_tree dump_tree
    rw [hr]
  refine ⟨?_, by decide, ?_⟩
  · rw [hrt]
    decide
  · rw [hrt]
    intro hcon
    have h2 := congrArg (fun g => (List.headD g default).level) hcon
    revert h2
    decide

/-- C8: `load_all` propagates no error.  A missing file returns with the
whole state (sequence counter, color map, tree, layout) untouched; a file
whose `json.load` raises is caught with the state untouched; and a parsed
document whose records make `restore_tree` raise (here: a record without
the `values` key) is also caught, returning normally with the partially
assigned state — the swallowed body error is exhibited explicitly. -/
theorem c8_load_error_handling (todayD : Nat) (now idle : String) (st : AppState) :
    load_all todayD now idle none st = st
    ∧ load_all todayD now idle (some none) st = st
    ∧ loadBody todayD now idle badDoc st0 = .error
        { seq := 7, colorMap := [("A", "#ffffff")], tree := [],
          columnOrder := none, columnWidths := none, headerState := none,
          geometry := st0.geometry }
    ∧ load_all todayD now idle (some (some badDoc)) st0 =
        { seq := 7, colorMap := [("A", "#ffffff")], tree := [],
          columnOrder := none, columnWidths := none, headerState := none,
          geometry := st0.geometry } := by
  have h1 : restoreList todayD now idle [EntryJ.mk none none none none] = ([], false) := by
    rw [restoreList]
  have h2 : restore_tree todayD now idle (badDoc.records.getD []) = ([], false) := by
    show restore_tree todayD now idle [EntryJ.mk none none none none] = ([], false)
    unfold restore_tree
    rw [h1]
  have h3 : loadBody todayD now idle badDoc st0 = .error
      { seq := 7, colorMap := [("A", "#ffffff")], tree := [],
        columnOrder := none, columnWidths := none, headerState := none,
        geometry := st0.geometry } := by
    unfold loadBody
    rw [h2]
    rfl
  refine ⟨rfl, rfl, h3, ?_⟩
  show (match loadBody todayD now idle badDoc st0 with
        | .ok s => s
        | .error s => s) = _
  rw [h3]

end Todo
